/-
Verification of the natural-language specification of the playwright
client `BrowserContext` (packages/playwright-core/src/client/browserContext.ts)
against a shallow Lean embedding of that code.

The embedding covers:
  * the binding registry (`exposeBinding`, `_onBinding`),
  * the route interception chain (`route`, `unroute`, `_onRoute`),
  * the `waitForEvent` waiter setup and the waiter race semantics,
  * the `close()` teardown sequence with its HAR recorder drain.

Collaborators that live outside the analysed sources (the `Waiter`
primitive, `RouteHandler` internals, `BindingCall.call`, the server side of
the channel) are modelled from the specification; every such definition is
marked `Modelled from the spec:` in its doc comment.
-/
import Mathlib

/-! ## Binding registry (src lines 50, 171-176, 252-261) -/

/-- The binding table `_bindings : Map<string, callback>`, modelled as a
lookup function; callbacks abstracted as functions from the forwarded
argument list to the returned value. -/
def Bindings : Type := String → Option (List Nat → Nat)

/-- Embeds `exposeBinding` (src lines 252-255): the channel call
`channel.exposeBinding({name})` followed by `bindings.set(name, callback)`.
Modelled from the spec: the server response to the channel call is not in
the analysed sources; per spec section 9 this design chose silent
overwrite, so the call is modelled as always succeeding. `Map.set`
overwrites an existing key. -/
def exposeBinding (bs : Bindings) (name : String) (cb : List Nat → Nat) :
    Except String Bindings :=
  Except.ok (fun n => if n = name then some cb else bs n)

/-- Outcome of an inbound binding-call event. -/
inductive BindingOutcome where
  | ignored
  | responded (v : Nat)
deriving DecidableEq

/-- Embeds `_onBinding` (src lines 171-176): look the name up in
`_bindings`; if absent, return without doing anything; otherwise invoke the
callback. Modelled from the spec: `BindingCall.call` (spec section 4.5)
reports the callback result back through the call's own response
mechanism, rendered here as the `responded` outcome carrying the result. -/
def onBinding (bs : Bindings) (name : String) (args : List Nat) :
    BindingOutcome :=
  match bs name with
  | none => BindingOutcome.ignored
  | some f => BindingOutcome.responded (f args)

/-! ## Route interception chain (src lines 47, 155-169, 263-267, 291-299) -/

/-- One entry of the `_routes` chain, i.e. one `network.RouteHandler`.
`id` is the entry's object identity (assigned from a monotone counter at
add time, so it also records the add order). Modelled from the spec:
`RouteHandler` internals are not in the analysed sources; per spec
section 3 an entry carries a URL-matching predicate (represented by the
matcher identity `url`, interpreted through an ambient matching function),
a handler callback (represented by its identity `handler` and by
`decision`, whether the handler conclusively acts on a request), and a
remaining-invocation counter (`times`, `none` meaning unlimited). -/
structure RouteEntry where
  id : Nat
  url : Nat
  handler : Nat
  times : Option Nat
  decision : Bool
deriving DecidableEq

/-- Modelled from the spec: `RouteHandler.willExpire` is not in the
analysed sources; per spec section 4.4 an entry is expiring when its
remaining-invocation count reaches zero after this use, i.e. when the
remaining count is at most one. An unlimited entry never expires. -/
def willExpire (e : RouteEntry) : Bool :=
  match e.times with
  | some n => decide (n ≤ 1)
  | none => false

/-- Removes the first occurrence of `e` from `l` (the effect of
`splice(indexOf(e), 1)` when `e` is present). -/
def eraseFirst : List RouteEntry → RouteEntry → List RouteEntry
  | [], _ => []
  | x :: xs, e => if x = e then xs else x :: eraseFirst xs e

/-- Embeds `this._routes.splice(this._routes.indexOf(routeHandler), 1)`
(src line 161): JavaScript `indexOf` returns -1 when the element is
absent, and `splice(-1, 1)` then removes the last element. -/
def spliceIndexOf (l : List RouteEntry) (e : RouteEntry) : List RouteEntry :=
  if e ∈ l then eraseFirst l e else l.dropLast

/-- Observable steps of one `_onRoute` dispatch: a handler invocation
(recording the live chain at the moment the handler is invoked), the
best-effort disable-interception call, and the auto-continue of the
request. -/
inductive RouteTraceEv where
  | invoked (e : RouteEntry) (liveAtCall : List RouteEntry)
  | disableInterception
  | autoContinue
deriving DecidableEq

/-- Result of one `_onRoute` dispatch: the live chain afterwards, the
trace of observable steps, and whether some handler claimed the route. -/
structure RouteDispatch where
  live : List RouteEntry
  trace : List RouteTraceEv
  handled : Bool
deriving DecidableEq

/-- Embeds the loop of `_onRoute` (src lines 155-169), iterating the
snapshot front-to-back while threading the live chain: for a matching
entry, if it will expire it is spliced out of the live chain, then the
handler runs (its decision is the entry's `decision` field); after every
handler invocation, if the live chain is empty a best-effort
disable-interception call is issued; the first handler that conclusively
acts ends the dispatch, and if none does the route is auto-continued.
`m` interprets matcher identities: `m matcher reqUrl` is the URL
predicate (modelled from the spec, `RouteHandler.matches` not being in
the analysed sources). -/
def onRouteGo (m : Nat → Nat → Bool) (reqUrl : Nat) :
    List RouteEntry → List RouteEntry → RouteDispatch
  | [], live => ⟨live, [RouteTraceEv.autoContinue], false⟩
  | e :: rest, live =>
    if m e.url reqUrl then
      let live1 := if willExpire e then spliceIndexOf live e else live
      let evs := if live1.isEmpty then
          [RouteTraceEv.invoked e live1, RouteTraceEv.disableInterception]
        else [RouteTraceEv.invoked e live1]
      if e.decision then ⟨live1, evs, true⟩
      else
        let r := onRouteGo m reqUrl rest live1
        ⟨r.live, evs ++ r.trace, r.handled⟩
    else onRouteGo m reqUrl rest live

/-- Embeds `_onRoute` entry (src line 156): the snapshot is
`this._routes.slice()`, so iteration starts with snapshot = live chain. -/
def onRoute (m : Nat → Nat → Bool) (reqUrl : Nat) (routes : List RouteEntry) :
    RouteDispatch :=
  onRouteGo m reqUrl routes routes

/-- Projects the sequence of invoked handlers out of a dispatch trace. -/
def invokedEvs : List RouteTraceEv → List RouteEntry
  | [] => []
  | RouteTraceEv.invoked e _ :: rest => e :: invokedEvs rest
  | RouteTraceEv.disableInterception :: rest => invokedEvs rest
  | RouteTraceEv.autoContinue :: rest => invokedEvs rest

/-- A `route` or `unroute` public call on the context. -/
inductive RouteOp where
  | route (url handler : Nat) (times : Option Nat) (decision : Bool)
  | unroute (url : Nat) (handler : Option Nat)

/-- Client-side route state plus the server-side interception flag, with
counters for the `setNetworkInterceptionEnabled` calls issued. `nextId`
is the monotone counter handing out entry identities in add order. -/
structure InterceptionState where
  routes : List RouteEntry
  enabled : Bool
  enableCalls : Nat
  disableCalls : Nat
  nextId : Nat
deriving DecidableEq

/-- Fresh context: no routes, interception disabled. -/
def initialInterception : InterceptionState := ⟨[], false, 0, 0, 0⟩

/-- Embeds `route` (src lines 263-267): unshift a new handler entry onto
the chain front, and if the chain length just became 1, issue the
enable-interception call. -/
def routeCall (st : InterceptionState) (url handler : Nat)
    (times : Option Nat) (decision : Bool) : InterceptionState :=
  if ((⟨st.nextId, url, handler, times, decision⟩ : RouteEntry) :: st.routes).length = 1 then
    ⟨⟨st.nextId, url, handler, times, decision⟩ :: st.routes, true,
      st.enableCalls + 1, st.disableCalls, st.nextId + 1⟩
  else
    ⟨⟨st.nextId, url, handler, times, decision⟩ :: st.routes, st.enabled,
      st.enableCalls, st.disableCalls, st.nextId + 1⟩

/-- The keep-predicate of `unroute`'s filter (src line 292):
`route.url !== url || (handler && route.handler !== handler)`. -/
def keepOnUnroute (url : Nat) (handler : Option Nat) (r : RouteEntry) : Bool :=
  !(r.url == url) || (match handler with
    | some h => !(r.handler == h)
    | none => false)

/-- Embeds `unroute` (src lines 291-295): filter the chain, and if it is
now empty, issue the disable-interception call. -/
def unrouteCall (st : InterceptionState) (url : Nat) (handler : Option Nat) :
    InterceptionState :=
  if (st.routes.filter (keepOnUnroute url handler)).isEmpty then
    ⟨st.routes.filter (keepOnUnroute url handler), false,
      st.enableCalls, st.disableCalls + 1, st.nextId⟩
  else
    ⟨st.routes.filter (keepOnUnroute url handler), st.enabled,
      st.enableCalls, st.disableCalls, st.nextId⟩

/-- Applies one public call to the interception state. -/
def applyOp (st : InterceptionState) : RouteOp → InterceptionState
  | RouteOp.route u h t d => routeCall st u h t d
  | RouteOp.unroute u h => unrouteCall st u h

/-- Runs a sequence of `route`/`unroute` calls from the fresh context. -/
def applyOps (ops : List RouteOp) : InterceptionState :=
  ops.foldl applyOp initialInterception

/-- The chain is ordered most-recently-added first: entry identities
(assigned in add order) are strictly decreasing along the chain. -/
def lifoOrdered (l : List RouteEntry) : Prop :=
  List.Pairwise (fun a b => b.id < a.id) l

/-- Invariant of the interception state: entry identities are below the
id counter, the chain is LIFO-ordered, and the server-side flag mirrors
chain occupancy. -/
def stInv (st : InterceptionState) : Prop :=
  (∀ e ∈ st.routes, e.id < st.nextId)
    ∧ lifoOrdered st.routes
    ∧ st.enabled = !st.routes.isEmpty

/-! ## waitForEvent and the Waiter (src lines 301-313) -/

/-- The close event name, `Events.BrowserContext.Close`. -/
def browserContextCloseEvent : String := "close"

/-- The message of `rejectOnTimeout` (src line 306). -/
def timeoutMessage (timeout : Nat) (event : String) : String :=
  "Timeout " ++ toString timeout ++ "ms exceeded while waiting for event \""
    ++ event ++ "\""

/-- One registration a `waitForEvent` call installs on the waiter: the
timeout, an abort event whose arrival rejects the wait, or the awaited
event with its optional predicate (absent predicate modelled as the
always-true predicate). -/
inductive WaiterReg where
  | timeoutReg (t : Nat) (msg : String)
  | abortOn (event : String) (err : String)
  | matchOn (event : String) (pred : Nat → Bool)

/-- Registration kind, for stating registration-order facts. -/
inductive RegKind where
  | timeoutK
  | abortK
  | matchK
deriving DecidableEq

/-- Kind of a waiter registration. -/
def kindOf : WaiterReg → RegKind
  | WaiterReg.timeoutReg _ _ => RegKind.timeoutK
  | WaiterReg.abortOn _ _ => RegKind.abortK
  | WaiterReg.matchOn _ _ => RegKind.matchK

/-- Embeds the body of `waitForEvent` (src lines 305-309) as the ordered
list of registrations it installs: `rejectOnTimeout` first, then — unless
the awaited event is the close event itself — `rejectOnEvent` for the
context close event with the error `Context closed`, then the match
listener of `waiter.waitForEvent`. Modelled from the spec: each `Waiter`
primitive registers its listener at call time (spec section 4.3), so the
list order is the src call order. Event payloads are abstracted as `Nat`. -/
def waitForEventSetup (event : String) (timeout : Nat) (pred : Nat → Bool) :
    List WaiterReg :=
  [WaiterReg.timeoutReg timeout (timeoutMessage timeout event)]
    ++ (if event = browserContextCloseEvent then []
        else [WaiterReg.abortOn browserContextCloseEvent "Context closed"])
    ++ [WaiterReg.matchOn event pred]

/-- One occurrence the waiter can observe: a dispatched event (name and
payload) or the passage of one millisecond. -/
inductive Occ where
  | ev (name : String) (payload : Nat)
  | tick
deriving DecidableEq

/-- Settlement state of a waiter. -/
inductive WaitResult where
  | pending
  | resolved (p : Nat)
  | timedOut (msg : String)
  | aborted (err : String)
deriving DecidableEq

/-- Waiter run state: elapsed milliseconds and settlement. -/
structure WaiterState where
  elapsed : Nat
  result : WaitResult
deriving DecidableEq

/-- Whether a registration fires on a tick that brings the elapsed time to
`elapsedAfter`: only the timeout does, once its deadline is reached. -/
def regFiresTick (elapsedAfter : Nat) : WaiterReg → Option WaitResult
  | WaiterReg.timeoutReg t msg =>
    if t ≤ elapsedAfter then some (WaitResult.timedOut msg) else none
  | WaiterReg.abortOn _ _ => none
  | WaiterReg.matchOn _ _ => none

/-- Whether a registration fires on a dispatched event: the abort
registration fires on its event name, the match registration fires on its
event name when the predicate holds. -/
def regFiresEv (name : String) (payload : Nat) : WaiterReg → Option WaitResult
  | WaiterReg.timeoutReg _ _ => none
  | WaiterReg.abortOn e err =>
    if name = e then some (WaitResult.aborted err) else none
  | WaiterReg.matchOn e pred =>
    if name = e then
      (if pred payload then some (WaitResult.resolved payload) else none)
    else none

/-- First registration (in registration order) that fires, if any. -/
def firstSome (f : WaiterReg → Option WaitResult) :
    List WaiterReg → Option WaitResult
  | [] => none
  | r :: rs =>
    match f r with
    | some x => some x
    | none => firstSome f rs

/-- Modelled from the spec: the `Waiter` race (spec section 4.3) — the
first signal to fire settles the wait, a settled waiter never settles
again, and listeners attached to one occurrence are tried in registration
order (spec section 4.2). -/
def stepWaiter (regs : List WaiterReg) (st : WaiterState) (o : Occ) :
    WaiterState :=
  if st.result = WaitResult.pending then
    match o with
    | Occ.tick =>
      match firstSome (regFiresTick (st.elapsed + 1)) regs with
      | some r => ⟨st.elapsed + 1, r⟩
      | none => ⟨st.elapsed + 1, WaitResult.pending⟩
    | Occ.ev name payload =>
      match firstSome (regFiresEv name payload) regs with
      | some r => ⟨st.elapsed, r⟩
      | none => st
  else st

/-- Runs a waiter over a timeline of occurrences, starting unsettled at
elapsed time zero. -/
def runWaiter (regs : List WaiterReg) (occs : List Occ) : WaiterState :=
  occs.foldl (stepWaiter regs) ⟨0, WaitResult.pending⟩

/-- Whether an occurrence leaves the given registrations unfired (ticks
never fire event registrations; the timeline position of ticks is
accounted separately through `countTicks`). -/
def occNoFire (regs : List WaiterReg) : Occ → Bool
  | Occ.tick => true
  | Occ.ev name payload => decide (firstSome (regFiresEv name payload) regs = none)

/-- Number of elapsed milliseconds in a timeline segment. -/
def countTicks : List Occ → Nat
  | [] => 0
  | Occ.tick :: rest => countTicks rest + 1
  | Occ.ev _ _ :: rest => countTicks rest

/-! ## close() and the HAR recorder drain (src lines 61, 340-373) -/

/-- Content mode of a HAR recording session. -/
inductive HarContent where
  | embed
  | attach
  | omit
deriving DecidableEq

/-- One registered HAR recorder: destination path and content mode
(`undefined` in the source rendered as `none`). -/
structure HarParams where
  path : String
  content : Option HarContent
deriving DecidableEq

/-- An error raised during teardown; `safe` is `isSafeCloseError e`
(modelled from the spec, section 7: a safe close error is an expected
already-gone condition that `close()` swallows). -/
structure CloseErr where
  safe : Bool
  msg : String
deriving DecidableEq

/-- Observable teardown steps of `close()`: the pre-close hook
`_onWillCloseContext`, the per-session `harExport` channel call, the
artifact `saveAs` (recording whether the bytes written are a compressed
archive), the `harUnzip` local-utils call (which writes the decompressed
HAR at its second path), the artifact release, the remote
`channel.close()` request, and the await of the closed signal. -/
inductive Act where
  | willCloseHook
  | harExport (harId : String)
  | saveAs (file : String) (compressed : Bool)
  | harUnzip (zip : String) (har : String)
  | artifactDelete (harId : String)
  | channelClose
  | awaitClosed
deriving DecidableEq

/-- Embeds `path.endsWith(".zip")` (src lines 355-356), phrased over the
path's character list so that it evaluates on concrete paths. -/
def endsWithZip (s : String) : Bool :=
  decide (s.data.reverse.take 4 = (".zip").data.reverse)

/-- Embeds the per-session body of the HAR drain loop (src lines 352-363):
export the recording; the artifact is compressed when the content mode is
attach or the path ends in `.zip` (src comment line 354); if it is
compressed but the destination must not be (`path` not ending in `.zip`),
save it to `path + ".tmp"` and unzip into `path`, otherwise save directly
to `path`; finally release the artifact. -/
def harSessionActs (harId : String) (p : HarParams) : List Act :=
  let isCompressed := p.content = some HarContent.attach ∨ endsWithZip p.path
  let needCompressed := endsWithZip p.path
  [Act.harExport harId]
    ++ (if isCompressed ∧ ¬ needCompressed then
          [Act.saveAs (p.path ++ ".tmp") true, Act.harUnzip (p.path ++ ".tmp") p.path]
        else [Act.saveAs p.path (decide isCompressed)])
    ++ [Act.artifactDelete harId]

/-- The HAR drain loop over all registered recorders in registration
order (src lines 351-364): `failAt` states, per session id, whether the
`harExport` channel call fails and with which error; a failure aborts the
loop immediately with that error. -/
def drainHar (failAt : String → Option CloseErr) :
    List (String × HarParams) → List Act × Option CloseErr
  | [] => ([], none)
  | (harId, p) :: rest =>
    match failAt harId with
    | some e => ([Act.harExport harId], some e)
    | none =>
      let r := drainHar failAt rest
      (harSessionActs harId p ++ r.1, r.2)

/-- Embeds one `close()` call (src lines 347-373): run the pre-close hook,
drain the HAR recorders, then issue the remote close request and await the
closed signal; an error thrown during the drain skips the remaining steps
and is swallowed when it is a safe close error (src lines 368-372),
otherwise it is rethrown to the caller. Returns the trace of teardown
steps this one call executes, and the call's outcome. -/
def closeRun (recorders : List (String × HarParams))
    (failAt : String → Option CloseErr) : List Act × Except CloseErr Unit :=
  let d := drainHar failAt recorders
  match d.2 with
  | some e =>
    if e.safe then (Act.willCloseHook :: d.1, Except.ok ())
    else (Act.willCloseHook :: d.1, Except.error e)
  | none =>
    (Act.willCloseHook :: (d.1 ++ [Act.channelClose, Act.awaitClosed]),
     Except.ok ())

/-- Modelled from the spec: the file-system outcome of the drain actions
(spec section 4.6) — `saveAs` writes the artifact bytes at its path
(compressed or not as recorded), `harUnzip` writes the decompressed HAR at
its destination path; the last write to a path wins. `fileAt acts q` is
`some c` when the path `q` was written and finally holds a compressed
archive iff `c`. -/
def actWrites (q : String) : Act → Option Bool
  | Act.saveAs f c => if q = f then some c else none
  | Act.harUnzip _ har => if q = har then some false else none
  | _ => none

/-- Final content kind at path `q` after a list of teardown actions. -/
def fileAt (acts : List Act) (q : String) : Option Bool :=
  acts.reverse.findSome? (actWrites q)

/-- An interleaved execution of two concurrent `close()` calls: the
merged step sequence preserves the order of each call's own steps. -/
inductive Interleaving : List Act → List Act → List Act → Prop where
  | nil : Interleaving [] [] []
  | left (a : Act) {l1 l2 l : List Act} :
      Interleaving l1 l2 l → Interleaving (a :: l1) l2 (a :: l)
  | right (a : Act) {l1 l2 l : List Act} :
      Interleaving l1 l2 l → Interleaving l1 (a :: l2) (a :: l)

/-! ## Theorems for claims C7 and C8 -/

/-- C7: an inbound binding-call event whose name is not registered is a
silent no-op (no error, no callback invoked); for a registered name the
registered callback is invoked with the forwarded arguments and its result
is reported back as the call's response. -/
theorem bindingDispatch_c7 (bs : Bindings) (name : String) (args : List Nat) :
    (bs name = none → onBinding bs name args = BindingOutcome.ignored)
    ∧ (∀ f, bs name = some f →
        onBinding bs name args = BindingOutcome.responded (f args)) := by
  constructor
  · intro h
    simp [onBinding, h]
  · intro f h
    simp [onBinding, h]

/-- Witness for C7 at a concrete binding table: a call for the unregistered
name ghost is ignored, a call for the registered name greet responds with
the callback result. -/
theorem bindingDispatch_c7_witness :
    onBinding (fun n => if n = "greet" then some (fun args => args.length) else none)
      "ghost" [] = BindingOutcome.ignored
    ∧ onBinding (fun n => if n = "greet" then some (fun args => args.length) else none)
      "greet" [7] = BindingOutcome.responded 1 :=
  ⟨(bindingDispatch_c7 _ "ghost" []).1 rfl,
   (bindingDispatch_c7 _ "greet" [7]).2 (fun args => args.length) rfl⟩

/-- C8: re-exposing a name overwrites the previous callback without a
duplicate-registration error (every expose succeeds), and subsequent
binding calls for that name invoke only the most recently exposed
callback. -/
theorem bindingOverwrite_c8 (bs : Bindings) (name : String)
    (cb1 cb2 : List Nat → Nat) (args : List Nat) (bs1 bs2 : Bindings)
    (h1 : exposeBinding bs name cb1 = Except.ok bs1)
    (h2 : exposeBinding bs1 name cb2 = Except.ok bs2) :
    (∀ (b : Bindings) (n : String) (cb : List Nat → Nat),
        ∃ b2, exposeBinding b n cb = Except.ok b2)
    ∧ bs2 name = some cb2
    ∧ onBinding bs2 name args = BindingOutcome.responded (cb2 args) := by
  have hbs2 : bs2 = fun n => if n = name then some cb2 else bs1 n := by
    have := h2
    simp [exposeBinding] at this
    exact this.symm
  refine ⟨fun b n cb => ⟨_, rfl⟩, ?_, ?_⟩
  · rw [hbs2]
    simp
  · rw [hbs2]
    simp [onBinding]

/-- Witness for C8 at a concrete table: after exposing greet twice, a
binding call for greet responds with the second callback's result. -/
theorem bindingOverwrite_c8_witness :
    onBinding
      (fun n => if n = "greet" then some (fun args => args.length)
        else (if n = "greet" then some (fun _ => 0) else (fun _ => none) n))
      "greet" [1, 2] = BindingOutcome.responded 2 :=
  (bindingOverwrite_c8 (fun _ => none) "greet" (fun _ => 0)
    (fun args => args.length) [1, 2]
    (fun n => if n = "greet" then some (fun _ => 0) else (fun _ => none) n)
    (fun n => if n = "greet" then some (fun args => args.length)
      else (if n = "greet" then some (fun _ => 0) else (fun _ => none) n))
    rfl rfl).2.2

/-! ## Route chain lemmas -/

/-- Removing the first occurrence yields a sublist. -/
theorem eraseFirst_sublist (l : List RouteEntry) (e : RouteEntry) :
    List.Sublist (eraseFirst l e) l := by
  induction l with
  | nil => simp [eraseFirst]
  | cons x xs ih =>
    by_cases h : x = e
    · simp [eraseFirst, h]
    · simp only [eraseFirst, if_neg h]
      exact List.Sublist.cons₂ x ih

/-- In a duplicate-free chain, removing the first occurrence of an entry
removes it entirely. -/
theorem not_mem_eraseFirst_self (l : List RouteEntry) (e : RouteEntry)
    (hnd : l.Nodup) (hmem : e ∈ l) : e ∉ eraseFirst l e := by
  induction l with
  | nil => simp [eraseFirst]
  | cons x xs ih =>
    by_cases h : x = e
    · simp only [eraseFirst, if_pos h]
      subst h
      exact (List.nodup_cons.mp hnd).1
    · simp only [eraseFirst, if_neg h]
      intro hc
      rcases List.mem_cons.mp hc with hx | hx
      · exact h hx.symm
      · have hm : e ∈ xs := by
          rcases List.mem_cons.mp hmem with hy | hy
          · exact absurd hy.symm h
          · exact hy
        exact ih (List.nodup_cons.mp hnd).2 hm hx

/-- The splice result is a sublist of the original chain. -/
theorem spliceIndexOf_sublist (l : List RouteEntry) (e : RouteEntry) :
    List.Sublist (spliceIndexOf l e) l := by
  unfold spliceIndexOf
  split
  · exact eraseFirst_sublist l e
  · exact List.dropLast_sublist l

/-- In a duplicate-free chain, the spliced-out entry is gone. -/
theorem not_mem_spliceIndexOf_self (l : List RouteEntry) (e : RouteEntry)
    (hnd : l.Nodup) : e ∉ spliceIndexOf l e := by
  unfold spliceIndexOf
  split
  · next h => exact not_mem_eraseFirst_self l e hnd h
  · next h => exact fun hc => h ((List.dropLast_sublist l).subset hc)

/-- Splicing preserves freedom from duplicates. -/
theorem nodup_spliceIndexOf (l : List RouteEntry) (e : RouteEntry)
    (hnd : l.Nodup) : (spliceIndexOf l e).Nodup :=
  (spliceIndexOf_sublist l e).nodup hnd

/-- Invoked-handler projection distributes over trace concatenation. -/
theorem invokedEvs_append (a b : List RouteTraceEv) :
    invokedEvs (a ++ b) = invokedEvs a ++ invokedEvs b := by
  induction a with
  | nil => simp [invokedEvs]
  | cons x xs ih =>
    cases x <;> simp [invokedEvs, ih]

/-- The invoked-handler labels recorded for one matching entry are that
entry alone, whether or not the disable step follows. -/
theorem invokedEvs_entryEvs (b : Bool) (e : RouteEntry) (lv : List RouteEntry) :
    invokedEvs (if b then
        [RouteTraceEv.invoked e lv, RouteTraceEv.disableInterception]
      else [RouteTraceEv.invoked e lv]) = [e] := by
  cases b <;> simp [invokedEvs]

/-- The in-flight iteration of `_onRoute` is driven by the snapshot
alone: the live chain it threads (the part concurrent `route`/`unroute`
calls would mutate) affects neither which handlers are invoked nor
whether the route ends up handled. -/
theorem onRouteGo_live_independent (m : Nat → Nat → Bool) (reqUrl : Nat) :
    ∀ (snap live live2 : List RouteEntry),
      invokedEvs (onRouteGo m reqUrl snap live).trace
          = invokedEvs (onRouteGo m reqUrl snap live2).trace
      ∧ (onRouteGo m reqUrl snap live).handled
          = (onRouteGo m reqUrl snap live2).handled := by
  intro snap
  induction snap with
  | nil => intro live live2; simp [onRouteGo, invokedEvs]
  | cons e rest ih =>
    intro live live2
    by_cases hm : m e.url reqUrl
    · by_cases hd : e.decision
      · simp only [onRouteGo, if_pos hm, if_pos hd]
        constructor
        · rw [invokedEvs_entryEvs, invokedEvs_entryEvs]
        · trivial
      · simp only [onRouteGo, if_pos hm, if_neg hd]
        constructor
        · rw [invokedEvs_append, invokedEvs_append,
            invokedEvs_entryEvs, invokedEvs_entryEvs]
          rw [(ih _ _).1]
        · exact (ih _ _).2
    · simp only [onRouteGo, if_neg hm]
      exact ih live live2

/-- In a dispatch over a duplicate-free live chain, every expiring entry
has already been removed from the live chain recorded at the moment its
handler is invoked. -/
theorem onRouteGo_expire_removed (m : Nat → Nat → Bool) (reqUrl : Nat) :
    ∀ (snap live : List RouteEntry), live.Nodup →
      ∀ e la, RouteTraceEv.invoked e la ∈ (onRouteGo m reqUrl snap live).trace →
        willExpire e = true → e ∉ la := by
  intro snap
  induction snap with
  | nil =>
    intro live _ e la hmem
    simp [onRouteGo] at hmem
  | cons e0 rest ih =>
    intro live hnd e la hmem hexp
    by_cases hm : m e0.url reqUrl
    · simp only [onRouteGo, if_pos hm] at hmem
      have hstep : ∀ lv1 : List RouteEntry,
          lv1 = (if willExpire e0 then spliceIndexOf live e0 else live) →
          RouteTraceEv.invoked e la ∈ (if lv1.isEmpty then
              [RouteTraceEv.invoked e0 lv1, RouteTraceEv.disableInterception]
            else [RouteTraceEv.invoked e0 lv1]) →
          e ∉ la := by
        intro lv1 hlv hin
        have hinv : RouteTraceEv.invoked e la = RouteTraceEv.invoked e0 lv1 := by
          by_cases hb : lv1.isEmpty <;> simp [hb] at hin <;>
            simp [hin]
        have he : e = e0 := by injection hinv
        have hla : la = lv1 := by injection hinv
        subst he
        rw [hla, hlv]
        rw [hexp] at hlv ⊢
        simp only [if_pos rfl]
        exact not_mem_spliceIndexOf_self live e hnd
      by_cases hd : e0.decision
      · rw [if_pos hd] at hmem
        exact hstep _ rfl hmem
      · rw [if_neg hd] at hmem
        simp only [List.mem_append] at hmem
        rcases hmem with hin | hin
        · exact hstep _ rfl hin
        · have hnd1 : (if willExpire e0 then spliceIndexOf live e0 else live).Nodup := by
            split
            · exact nodup_spliceIndexOf live e0 hnd
            · exact hnd
          exact ih _ hnd1 e la hin hexp
    · simp only [onRouteGo, if_neg hm] at hmem
      exact ih live hnd e la hmem hexp

/-- When no matching entry of the snapshot conclusively acts, the
dispatch ends with the auto-continue step. -/
theorem onRouteGo_autoContinue (m : Nat → Nat → Bool) (reqUrl : Nat) :
    ∀ (snap live : List RouteEntry),
      (∀ e ∈ snap, m e.url reqUrl = true → e.decision = false) →
      RouteTraceEv.autoContinue ∈ (onRouteGo m reqUrl snap live).trace := by
  intro snap
  induction snap with
  | nil => intro live _; simp [onRouteGo]
  | cons e0 rest ih =>
    intro live h
    by_cases hm : m e0.url reqUrl
    · have hd : e0.decision = false := h e0 (List.mem_cons_self e0 rest) hm
      simp only [onRouteGo, if_pos hm, hd, if_neg Bool.false_ne_true]
      refine List.mem_append.mpr (Or.inr ?_)
      exact ih _ (fun e he hme => h e (List.mem_cons_of_mem e0 he) hme)
    · simp only [onRouteGo, if_neg hm]
      exact ih live (fun e he hme => h e (List.mem_cons_of_mem e0 he) hme)

/-- C3: on an inbound route event the handler chain is iterated
front-to-back over a snapshot taken at dispatch start — the live chain,
which concurrent `route`/`unroute` calls would mutate, does not influence
which handlers are invoked nor the handled outcome; an entry whose
remaining-invocation count reaches zero on this use is removed from the
live chain before its handler is invoked; and when no matching handler
conclusively acts, the request is auto-continued. -/
theorem onRoute_c3 (m : Nat → Nat → Bool) (reqUrl : Nat)
    (routes : List RouteEntry) (hnd : routes.Nodup) :
    (∀ live live2 : List RouteEntry,
        invokedEvs (onRouteGo m reqUrl routes live).trace
            = invokedEvs (onRouteGo m reqUrl routes live2).trace
        ∧ (onRouteGo m reqUrl routes live).handled
            = (onRouteGo m reqUrl routes live2).handled)
    ∧ (∀ e la, RouteTraceEv.invoked e la ∈ (onRoute m reqUrl routes).trace →
        willExpire e = true → e ∉ la)
    ∧ ((∀ e ∈ routes, m e.url reqUrl = true → e.decision = false) →
        RouteTraceEv.autoContinue ∈ (onRoute m reqUrl routes).trace) :=
  ⟨fun live live2 => onRouteGo_live_independent m reqUrl routes live live2,
   fun e la hmem hexp =>
     onRouteGo_expire_removed m reqUrl routes routes hnd e la hmem hexp,
   fun h => onRouteGo_autoContinue m reqUrl routes routes h⟩

/-- Witness for C3 on a concrete chain of two matching, non-acting
handlers: the dispatch auto-continues, and the expiring first entry is
absent from the live chain at its own invocation. -/
theorem onRoute_c3_witness :
    RouteTraceEv.autoContinue ∈
      (onRoute (fun a b => a == b) 5
        [⟨1, 5, 1, some 1, false⟩, ⟨0, 5, 0, none, false⟩]).trace :=
  (onRoute_c3 (fun a b => a == b) 5
    [⟨1, 5, 1, some 1, false⟩, ⟨0, 5, 0, none, false⟩]
    (by decide)).2.2 (by decide)

/-! ## Interception-flag lemmas and claim C4 -/

/-- The route chain after an `unroute` call is the filtered chain, in
either branch. -/
theorem unrouteCall_routes (st : InterceptionState) (u : Nat)
    (h : Option Nat) :
    (unrouteCall st u h).routes = st.routes.filter (keepOnUnroute u h) := by
  unfold unrouteCall
  split <;> rfl

/-- One `route` or `unroute` call preserves the interception invariant. -/
theorem stInv_applyOp (st : InterceptionState) (op : RouteOp)
    (hinv : stInv st) : stInv (applyOp st op) := by
  obtain ⟨hid, hlifo, hen⟩ := hinv
  cases op with
  | route u h t d =>
    show stInv (routeCall st u h t d)
    by_cases hc : st.routes = []
    · simp only [routeCall, hc]
      have hone : ((⟨st.nextId, u, h, t, d⟩ : RouteEntry)
          :: ([] : List RouteEntry)).length = 1 := rfl
      rw [if_pos hone]
      refine ⟨?_, ?_, ?_⟩
      · intro x hx
        simp only [List.mem_singleton] at hx
        rw [hx]
        exact Nat.lt_succ_self st.nextId
      · simp [lifoOrdered]
      · simp
    · have hne : ¬ (((⟨st.nextId, u, h, t, d⟩ : RouteEntry) :: st.routes).length = 1) := by
        intro hlen
        exact hc (List.length_eq_zero.mp (Nat.succ_injective hlen))
      simp only [routeCall]
      rw [if_neg hne]
      refine ⟨?_, ?_, ?_⟩
      · intro x hx
        rcases List.mem_cons.mp hx with hx1 | hx1
        · rw [hx1]
          exact Nat.lt_succ_self st.nextId
        · exact Nat.lt_succ_of_lt (hid x hx1)
      · exact List.pairwise_cons.mpr ⟨fun b hb => hid b hb, hlifo⟩
      · rw [hen]
        cases hx : st.routes with
        | nil => exact absurd hx hc
        | cons y ys => simp
  | unroute u h =>
    show stInv (unrouteCall st u h)
    by_cases he : (st.routes.filter (keepOnUnroute u h)).isEmpty
    · simp only [unrouteCall]
      rw [if_pos he]
      refine ⟨?_, ?_, ?_⟩
      · intro x hx
        exact hid x (List.mem_of_mem_filter hx)
      · exact hlifo.filter _
      · rw [he]
        rfl
    · simp only [unrouteCall]
      rw [if_neg he]
      refine ⟨?_, ?_, ?_⟩
      · intro x hx
        exact hid x (List.mem_of_mem_filter hx)
      · exact hlifo.filter _
      · have hrne : st.routes ≠ [] := by
          intro h0
          exact he (by simp [h0])
        have h1 : st.routes.isEmpty = false :=
          Bool.eq_false_iff.mpr (fun hh => hrne (List.isEmpty_iff.mp hh))
        have h2 : (st.routes.filter (keepOnUnroute u h)).isEmpty = false :=
          Bool.eq_false_iff.mpr he
        rw [hen, h1, h2]

/-- Any sequence of calls starting from an invariant state lands in an
invariant state. -/
theorem stInv_foldl (ops : List RouteOp) :
    ∀ st : InterceptionState, stInv st → stInv (List.foldl applyOp st ops) := by
  induction ops with
  | nil => intro st hs; exact hs
  | cons op rest ih => intro st hs; exact ih _ (stInv_applyOp st op hs)

/-- The fresh context satisfies the interception invariant. -/
theorem stInv_initial : stInv initialInterception := by
  refine ⟨?_, ?_, ?_⟩ <;> simp [initialInterception, lifoOrdered]

/-- Every reachable interception state satisfies the invariant. -/
theorem stInv_applyOps (ops : List RouteOp) : stInv (applyOps ops) :=
  stInv_foldl ops initialInterception stInv_initial

/-- Appending a final call is applying it to the reached state. -/
theorem applyOps_append_one (ops : List RouteOp) (op : RouteOp) :
    applyOps (ops ++ [op]) = applyOp (applyOps ops) op := by
  simp [applyOps, List.foldl_append]

/-- C4: for every sequence of `route`/`unroute` calls, the live chain is
ordered most-recently-added first and the server-side interception flag
is true iff the chain is non-empty; the `route` call that makes the chain
non-empty issues exactly one enable call (others none), and the `unroute`
call that empties it issues exactly one disable call (others none). -/
theorem routeUnroute_c4 (ops : List RouteOp) :
    (lifoOrdered (applyOps ops).routes
      ∧ ((applyOps ops).enabled = true ↔ (applyOps ops).routes ≠ []))
    ∧ (∀ u h t d, (applyOps ops).routes = [] →
        (applyOps (ops ++ [RouteOp.route u h t d])).enableCalls
          = (applyOps ops).enableCalls + 1)
    ∧ (∀ u h t d, (applyOps ops).routes ≠ [] →
        (applyOps (ops ++ [RouteOp.route u h t d])).enableCalls
          = (applyOps ops).enableCalls)
    ∧ (∀ u h, (applyOps (ops ++ [RouteOp.unroute u h])).routes = [] →
        (applyOps (ops ++ [RouteOp.unroute u h])).disableCalls
          = (applyOps ops).disableCalls + 1)
    ∧ (∀ u h, (applyOps (ops ++ [RouteOp.unroute u h])).routes ≠ [] →
        (applyOps (ops ++ [RouteOp.unroute u h])).disableCalls
          = (applyOps ops).disableCalls) := by
  obtain ⟨hid, hlifo, hen⟩ := stInv_applyOps ops
  refine ⟨⟨hlifo, ?_⟩, ?_, ?_, ?_, ?_⟩
  · rw [hen]
    cases hx : (applyOps ops).routes <;> simp
  · intro u h t d hre
    rw [applyOps_append_one]
    show (routeCall (applyOps ops) u h t d).enableCalls = _
    simp only [routeCall, hre]
    have hone : ((⟨(applyOps ops).nextId, u, h, t, d⟩ : RouteEntry)
        :: ([] : List RouteEntry)).length = 1 := rfl
    rw [if_pos hone]
  · intro u h t d hre
    rw [applyOps_append_one]
    show (routeCall (applyOps ops) u h t d).enableCalls = _
    have hne : ¬ (((⟨(applyOps ops).nextId, u, h, t, d⟩ : RouteEntry)
        :: (applyOps ops).routes).length = 1) := by
      intro hlen
      exact hre (List.length_eq_zero.mp (Nat.succ_injective hlen))
    simp only [routeCall]
    rw [if_neg hne]
  · intro u h hres
    rw [applyOps_append_one] at hres ⊢
    simp only [applyOp] at hres ⊢
    rw [unrouteCall_routes] at hres
    simp only [unrouteCall]
    have hemp : ((applyOps ops).routes.filter (keepOnUnroute u h)).isEmpty = true := by
      rw [hres]
      rfl
    rw [if_pos hemp]
  · intro u h hres
    rw [applyOps_append_one] at hres ⊢
    simp only [applyOp] at hres ⊢
    rw [unrouteCall_routes] at hres
    have hne : ¬ ((applyOps ops).routes.filter (keepOnUnroute u h)).isEmpty = true := by
      intro hh
      exact hres (List.isEmpty_iff.mp hh)
    simp only [unrouteCall]
    rw [if_neg hne]

/-- Witness for C4 on a concrete call sequence: after one `route` call,
the `unroute` call that empties the chain issues exactly one disable
call. -/
theorem routeUnroute_c4_witness :
    (applyOps ([RouteOp.route 1 2 none false] ++ [RouteOp.unroute 1 (some 2)])).disableCalls
      = (applyOps [RouteOp.route 1 2 none false]).disableCalls + 1 :=
  (routeUnroute_c4 [RouteOp.route 1 2 none false]).2.2.2.1 1 (some 2) (by decide)

/-! ## Waiter lemmas and claims C5, C6, C10 -/

/-- A settled waiter ignores any further occurrence. -/
theorem stepWaiter_settled (regs : List WaiterReg) (st : WaiterState) (o : Occ)
    (h : ¬ st.result = WaitResult.pending) : stepWaiter regs st o = st := by
  unfold stepWaiter
  rw [if_neg h]

/-- A settled waiter ignores any further timeline. -/
theorem foldl_stepWaiter_settled (regs : List WaiterReg) (occs : List Occ) :
    ∀ st : WaiterState, ¬ st.result = WaitResult.pending →
      List.foldl (stepWaiter regs) st occs = st := by
  induction occs with
  | nil => intro st _; rfl
  | cons o rest ih =>
    intro st h
    rw [List.foldl_cons, stepWaiter_settled regs st o h]
    exact ih st h

/-- A pending waiter that meets an occurrence firing `r` settles as `r`,
and the rest of the timeline cannot change that. -/
theorem runWaiter_append_settles (regs : List WaiterReg) (pre : List Occ)
    (o : Occ) (rest : List Occ) (r : WaitResult)
    (hpend : (runWaiter regs pre).result = WaitResult.pending)
    (hr : ¬ r = WaitResult.pending)
    (hfire : ∀ st : WaiterState, st.result = WaitResult.pending →
        (stepWaiter regs st o).result = r) :
    (runWaiter regs (pre ++ o :: rest)).result = r := by
  show (List.foldl (stepWaiter regs) ⟨0, WaitResult.pending⟩ (pre ++ o :: rest)).result = r
  rw [List.foldl_append, List.foldl_cons]
  have h1 : (stepWaiter regs
      (List.foldl (stepWaiter regs) ⟨0, WaitResult.pending⟩ pre) o).result = r :=
    hfire _ hpend
  rw [foldl_stepWaiter_settled regs rest _ (by rw [h1]; exact hr)]
  exact h1

/-- An event occurrence whose first firing registration yields `r`
settles a pending waiter as `r`. -/
theorem stepWaiter_ev_fires (regs : List WaiterReg) (name : String)
    (payload : Nat) (r : WaitResult)
    (hf : firstSome (regFiresEv name payload) regs = some r) :
    ∀ st : WaiterState, st.result = WaitResult.pending →
      (stepWaiter regs st (Occ.ev name payload)).result = r := by
  intro st hs
  simp [stepWaiter, hs, hf]

/-- On a tick reaching the deadline, the timeout registration (first in
registration order) fires. -/
theorem firstSome_tick_fires (event : String) (T : Nat) (pred : Nat → Bool)
    (eA : Nat) (h : T ≤ eA) :
    firstSome (regFiresTick eA) (waitForEventSetup event T pred)
      = some (WaitResult.timedOut (timeoutMessage T event)) := by
  simp [waitForEventSetup, firstSome, regFiresTick, h]

/-- Before the deadline, a tick fires no registration. -/
theorem firstSome_tick_quiet (event : String) (T : Nat) (pred : Nat → Bool)
    (eA : Nat) (h : ¬ T ≤ eA) :
    firstSome (regFiresTick eA) (waitForEventSetup event T pred) = none := by
  by_cases he : event = browserContextCloseEvent <;>
    simp [waitForEventSetup, firstSome, regFiresTick, h, he]

/-- For a wait on an event other than close, a dispatched close event is
claimed by the abort registration. -/
theorem firstSome_ev_close (event : String) (T : Nat) (pred : Nat → Bool)
    (c : Nat) (hev : ¬ event = browserContextCloseEvent) :
    firstSome (regFiresEv browserContextCloseEvent c) (waitForEventSetup event T pred)
      = some (WaitResult.aborted "Context closed") := by
  simp [waitForEventSetup, firstSome, regFiresEv, hev]

/-- A dispatched awaited event with a satisfied predicate is claimed by
the match registration. -/
theorem firstSome_ev_match (event : String) (T : Nat) (pred : Nat → Bool)
    (payload : Nat) (hev : ¬ event = browserContextCloseEvent)
    (hp : pred payload = true) :
    firstSome (regFiresEv event payload) (waitForEventSetup event T pred)
      = some (WaitResult.resolved payload) := by
  simp [waitForEventSetup, firstSome, regFiresEv, hev, hp]

/-- When the awaited event is close itself, a dispatched close event is
claimed by the match registration. -/
theorem firstSome_ev_match_close (T : Nat) (pred : Nat → Bool) (payload : Nat)
    (hp : pred payload = true) :
    firstSome (regFiresEv browserContextCloseEvent payload)
        (waitForEventSetup browserContextCloseEvent T pred)
      = some (WaitResult.resolved payload) := by
  simp [waitForEventSetup, firstSome, regFiresEv, hp]

/-- A pending waiter on a quiet timeline whose ticks reach the deadline
times out. -/
theorem runWaiter_quiet_timesOut (event : String) (T : Nat) (pred : Nat → Bool) :
    ∀ (pre : List Occ) (elapsed : Nat), elapsed < T →
      (∀ o ∈ pre, occNoFire (waitForEventSetup event T pred) o = true) →
      T ≤ elapsed + countTicks pre →
      (List.foldl (stepWaiter (waitForEventSetup event T pred))
          ⟨elapsed, WaitResult.pending⟩ pre).result
        = WaitResult.timedOut (timeoutMessage T event) := by
  intro pre
  induction pre with
  | nil =>
    intro elapsed hlt _ hT
    exact absurd hT (by simp [countTicks]; omega)
  | cons o rest ih =>
    intro elapsed hlt hq hT
    have hqrest : ∀ x ∈ rest, occNoFire (waitForEventSetup event T pred) x = true :=
      fun x hx => hq x (List.mem_cons_of_mem o hx)
    cases o with
    | tick =>
      rw [List.foldl_cons]
      by_cases hd : T ≤ elapsed + 1
      · have hstep : stepWaiter (waitForEventSetup event T pred)
            ⟨elapsed, WaitResult.pending⟩ Occ.tick
            = ⟨elapsed + 1, WaitResult.timedOut (timeoutMessage T event)⟩ := by
          simp [stepWaiter, firstSome_tick_fires event T pred (elapsed + 1) hd]
        rw [hstep, foldl_stepWaiter_settled _ rest _ (by simp)]
      · have hstep : stepWaiter (waitForEventSetup event T pred)
            ⟨elapsed, WaitResult.pending⟩ Occ.tick
            = ⟨elapsed + 1, WaitResult.pending⟩ := by
          simp [stepWaiter, firstSome_tick_quiet event T pred (elapsed + 1) hd]
        rw [hstep]
        refine ih (elapsed + 1) (Nat.lt_of_not_le hd) hqrest ?_
        have hct : countTicks (Occ.tick :: rest) = countTicks rest + 1 := rfl
        omega
    | ev name payload =>
      rw [List.foldl_cons]
      have hnf : firstSome (regFiresEv name payload) (waitForEventSetup event T pred) = none :=
        of_decide_eq_true (hq (Occ.ev name payload) (List.mem_cons_self _ _))
      have hstep : stepWaiter (waitForEventSetup event T pred)
          ⟨elapsed, WaitResult.pending⟩ (Occ.ev name payload)
          = ⟨elapsed, WaitResult.pending⟩ := by
        simp [stepWaiter, hnf]
      rw [hstep]
      refine ih elapsed hlt hqrest ?_
      have hct : countTicks (Occ.ev name payload :: rest) = countTicks rest := rfl
      omega

/-- C5: a `waitForEvent` wait that sees no qualifying occurrence while
`T` milliseconds elapse rejects with the timeout error, and stays so
however the timeline continues — in particular it never resolves on a
qualifying event arriving after the deadline. -/
theorem waitTimeout_c5 (event : String) (T : Nat) (pred : Nat → Bool)
    (pre post : List Occ) (hT : 1 ≤ T)
    (hquiet : ∀ o ∈ pre, occNoFire (waitForEventSetup event T pred) o = true)
    (hticks : T ≤ countTicks pre) :
    (runWaiter (waitForEventSetup event T pred) (pre ++ post)).result
      = WaitResult.timedOut (timeoutMessage T event) := by
  show (List.foldl (stepWaiter (waitForEventSetup event T pred))
      ⟨0, WaitResult.pending⟩ (pre ++ post)).result = _
  rw [List.foldl_append]
  have h1 := runWaiter_quiet_timesOut event T pred pre 0 (by omega) hquiet
    (by simpa using hticks)
  rw [foldl_stepWaiter_settled _ post _ (by rw [h1]; simp)]
  exact h1

/-- Witness for C5: waiting for request with timeout 2 on a timeline
whose first two milliseconds carry only an unrelated event times out,
even though a matching request event arrives after the deadline. -/
theorem waitTimeout_c5_witness :
    (runWaiter (waitForEventSetup "request" 2 (fun _ => true))
        ([Occ.tick, Occ.ev "other" 0, Occ.tick] ++ [Occ.ev "request" 7])).result
      = WaitResult.timedOut (timeoutMessage 2 "request") :=
  waitTimeout_c5 "request" 2 (fun _ => true)
    [Occ.tick, Occ.ev "other" 0, Occ.tick] [Occ.ev "request" 7]
    (by decide) (by decide) (by decide)

/-- C6 (amended): a pending wait on an event other than close rejects
with the context-closed error when the close event is dispatched first,
and resolves with the event payload when the awaited event is dispatched
first in the same batch; the outcome is fixed by dispatch order — the
waiter settles on the first firing signal — not by listener registration
order, since the two listeners watch different event names. -/
theorem waitAbort_c6 (event : String) (T : Nat) (pred : Nat → Bool)
    (pre rest : List Occ) (c payload : Nat)
    (hev : ¬ event = browserContextCloseEvent)
    (hpend : (runWaiter (waitForEventSetup event T pred) pre).result
      = WaitResult.pending) :
    ((runWaiter (waitForEventSetup event T pred)
        (pre ++ Occ.ev browserContextCloseEvent c :: rest)).result
      = WaitResult.aborted "Context closed")
    ∧ (pred payload = true →
      (runWaiter (waitForEventSetup event T pred)
          (pre ++ Occ.ev event payload :: Occ.ev browserContextCloseEvent c :: rest)).result
        = WaitResult.resolved payload) := by
  constructor
  · exact runWaiter_append_settles _ pre _ rest _ hpend (by simp)
      (stepWaiter_ev_fires _ _ c _ (firstSome_ev_close event T pred c hev))
  · intro hp
    exact runWaiter_append_settles _ pre _ _ _ hpend (by simp)
      (stepWaiter_ev_fires _ _ payload _ (firstSome_ev_match event T pred payload hev hp))

/-- Counterexample to C6 as stated: in the registration order installed by
`waitForEvent` for a non-close event, the abort (context-closed)
registration comes before the match registration, not after it — the
claim's asserted registration order (match first) is false of the code. -/
theorem waitAbort_c6_counter :
    ((waitForEventSetup "request" 30000 (fun _ => true)).map kindOf
        = [RegKind.timeoutK, RegKind.abortK, RegKind.matchK])
    ∧ ((waitForEventSetup "request" 30000 (fun _ => true)).map kindOf)[1]?
        = some RegKind.abortK
    ∧ ((waitForEventSetup "request" 30000 (fun _ => true)).map kindOf)[2]?
        = some RegKind.matchK := by
  refine ⟨?_, ?_, ?_⟩ <;> rfl

/-- Witness for C6 on a concrete wait for request: close dispatched first
aborts the wait; the awaited event dispatched first in the same batch
resolves it. -/
theorem waitAbort_c6_witness :
    ((runWaiter (waitForEventSetup "request" 2 (fun _ => true))
        ([] ++ Occ.ev browserContextCloseEvent 0 :: [])).result
      = WaitResult.aborted "Context closed")
    ∧ ((runWaiter (waitForEventSetup "request" 2 (fun _ => true))
        ([] ++ Occ.ev "request" 5 :: Occ.ev browserContextCloseEvent 0 :: [])).result
      = WaitResult.resolved 5) :=
  ⟨(waitAbort_c6 "request" 2 (fun _ => true) [] [] 0 5 (by decide) rfl).1,
   (waitAbort_c6 "request" 2 (fun _ => true) [] [] 0 5 (by decide) rfl).2 rfl⟩

/-- C10: a `waitForEvent` for the close event itself registers no
context-closed abort rejection, and when the close event arrives while
the wait is pending the wait resolves with the close event payload. -/
theorem waitClose_c10 (T : Nat) (pred : Nat → Bool) (pre rest : List Occ)
    (p : Nat)
    (hpend : (runWaiter (waitForEventSetup browserContextCloseEvent T pred) pre).result
      = WaitResult.pending)
    (hp : pred p = true) :
    (∀ r ∈ waitForEventSetup browserContextCloseEvent T pred,
        ¬ kindOf r = RegKind.abortK)
    ∧ (runWaiter (waitForEventSetup browserContextCloseEvent T pred)
        (pre ++ Occ.ev browserContextCloseEvent p :: rest)).result
      = WaitResult.resolved p := by
  constructor
  · intro r hr
    simp [waitForEventSetup] at hr
    rcases hr with h | h <;> subst h <;> simp [kindOf]
  · exact runWaiter_append_settles _ pre _ rest _ hpend (by simp)
      (stepWaiter_ev_fires _ _ p _ (firstSome_ev_match_close T pred p hp))

/-- Witness for C10: a concrete wait for close resolves with the close
payload when the context closes. -/
theorem waitClose_c10_witness :
    (runWaiter (waitForEventSetup browserContextCloseEvent 2 (fun _ => true))
        ([] ++ Occ.ev browserContextCloseEvent 9 :: [])).result
      = WaitResult.resolved 9 :=
  (waitClose_c10 2 (fun _ => true) [] [] 9 rfl rfl).2

/-! ## Close teardown lemmas and claims C1, C2, C9 -/

/-- The step count of a merged concurrent execution is the sum of the two
calls' own step counts. -/
theorem interleaving_count (a : Act) :
    ∀ {l1 l2 l : List Act}, Interleaving l1 l2 l →
      l.count a = l1.count a + l2.count a := by
  intro l1 l2 l h
  induction h with
  | nil => rfl
  | left b hi ih =>
    simp only [List.count_cons, ih]
    omega
  | right b hi ih =>
    simp only [List.count_cons, ih]
    omega

/-- Running one call to completion and then the other is one valid
interleaving of two concurrent calls. -/
theorem interleaving_append :
    ∀ l1 l2 : List Act, Interleaving l1 l2 (l1 ++ l2) := by
  intro l1
  induction l1 with
  | nil =>
    intro l2
    induction l2 with
    | nil => exact Interleaving.nil
    | cons b t ih => exact Interleaving.right b ih
  | cons a t ih =>
    intro l2
    exact Interleaving.left a (ih l2)

/-- C1 (amended): two concurrent `close()` calls each execute the full
teardown sequence themselves — under every interleaving of the two calls
every teardown step occurs exactly twice as often as in a single call,
not once; only the closed signal is shared between the callers. -/
theorem closeConcurrent_c1 (recorders : List (String × HarParams))
    (failAt : String → Option CloseErr) (l : List Act)
    (h : Interleaving (closeRun recorders failAt).1 (closeRun recorders failAt).1 l)
    (a : Act) :
    l.count a = 2 * (closeRun recorders failAt).1.count a := by
  have h2 := interleaving_count a h
  omega

/-- Counterexample to C1 as stated: a valid interleaving of two
concurrent `close()` calls on a context with no HAR recorders runs the
pre-close hook twice, not exactly once. -/
theorem closeConcurrent_c1_counter :
    Interleaving (closeRun [] (fun _ => none)).1 (closeRun [] (fun _ => none)).1
        ((closeRun [] (fun _ => none)).1 ++ (closeRun [] (fun _ => none)).1)
    ∧ ¬ (((closeRun [] (fun _ => none)).1
          ++ (closeRun [] (fun _ => none)).1).count Act.willCloseHook = 1) :=
  ⟨interleaving_append _ _, by decide⟩

/-- Witness for C1 at the concrete sequential interleaving of two calls:
the pre-close hook runs twice. -/
theorem closeConcurrent_c1_witness :
    ((closeRun [] (fun _ => none)).1
        ++ (closeRun [] (fun _ => none)).1).count Act.willCloseHook = 2 :=
  (closeConcurrent_c1 [] (fun _ => none)
    ((closeRun [] (fun _ => none)).1 ++ (closeRun [] (fun _ => none)).1)
    (interleaving_append _ _) Act.willCloseHook).trans (by decide)

/-- A failing export aborts the drain right there: sessions before the
failing one are fully processed, the failing one only reaches its export
call, and later sessions are never touched. -/
theorem drainHar_fail (failAt : String → Option CloseErr) (hid : String)
    (p : HarParams) (rest : List (String × HarParams)) (e : CloseErr)
    (hfail : failAt hid = some e) :
    ∀ pre : List (String × HarParams), (∀ x ∈ pre, failAt x.1 = none) →
      drainHar failAt (pre ++ (hid, p) :: rest)
        = (pre.flatMap (fun x => harSessionActs x.1 x.2) ++ [Act.harExport hid],
           some e) := by
  intro pre
  induction pre with
  | nil =>
    intro _
    simp [drainHar, hfail]
  | cons x xs ih =>
    intro hpre
    obtain ⟨xa, xb⟩ := x
    have hx : failAt xa = none := hpre (xa, xb) (List.mem_cons_self _ _)
    have hrest : ∀ y ∈ xs, failAt y.1 = none :=
      fun y hy => hpre y (List.mem_cons_of_mem _ hy)
    simp only [List.cons_append, drainHar, hx]
    simp only [List.append_eq]
    rw [ih hrest]
    simp [List.flatMap_cons, List.append_assoc]

/-- C2 (amended): during the HAR drain of `close()`, a failing export
aborts the loop — sessions after the failing one are not attempted — and
the failure, when it is not a safe close error, propagates immediately to
the `close()` caller; failures are not collected. -/
theorem closeHarFailure_c2 (pre : List (String × HarParams)) (hid : String)
    (p : HarParams) (rest : List (String × HarParams)) (e : CloseErr)
    (failAt : String → Option CloseErr)
    (hpre : ∀ x ∈ pre, failAt x.1 = none)
    (hfail : failAt hid = some e) (hnosafe : e.safe = false) :
    closeRun (pre ++ (hid, p) :: rest) failAt
      = (Act.willCloseHook :: (pre.flatMap (fun x => harSessionActs x.1 x.2)
          ++ [Act.harExport hid]), Except.error e) := by
  have hd := drainHar_fail failAt hid p rest e hfail pre hpre
  simp [closeRun, hd, hnosafe]

/-- Counterexample to C2 as stated: with three registered HAR sessions
where the second export fails, the third session is never exported, and
the error surfaces without the remaining session having been attempted. -/
theorem closeHarFailure_c2_counter :
    ((closeRun [("h1", ⟨"a.har", none⟩), ("h2", ⟨"b.har", none⟩),
          ("h3", ⟨"c.har", none⟩)]
        (fun s => if s = "h2" then some ⟨false, "boom"⟩ else none)).1.count
      (Act.harExport "h3") = 0)
    ∧ (closeRun [("h1", ⟨"a.har", none⟩), ("h2", ⟨"b.har", none⟩),
          ("h3", ⟨"c.har", none⟩)]
        (fun s => if s = "h2" then some ⟨false, "boom"⟩ else none)).2
      = Except.error ⟨false, "boom"⟩ :=
  ⟨by decide, rfl⟩

/-- Witness for C2 at three concrete sessions with the second failing:
the close trace stops at the failing export and the error is raised. -/
theorem closeHarFailure_c2_witness :
    closeRun ([("h1", (⟨"a.har", none⟩ : HarParams))]
        ++ ("h2", (⟨"b.har", none⟩ : HarParams))
          :: [("h3", (⟨"c.har", none⟩ : HarParams))])
        (fun s => if s = "h2" then some ⟨false, "boom"⟩ else none)
      = (Act.willCloseHook
          :: ([("h1", (⟨"a.har", none⟩ : HarParams))].flatMap
                (fun x => harSessionActs x.1 x.2)
              ++ [Act.harExport "h2"]),
         Except.error ⟨false, "boom"⟩) :=
  closeHarFailure_c2 [("h1", ⟨"a.har", none⟩)] "h2" ⟨"b.har", none⟩
    [("h3", ⟨"c.har", none⟩)] ⟨false, "boom"⟩
    (fun s => if s = "h2" then some ⟨false, "boom"⟩ else none)
    (by decide) (by decide) rfl

/-- C9 (amended): for each drained HAR session, the file finally written
at the destination path is a compressed archive iff the path ends in
`.zip` — when the server export is compressed (attach mode or `.zip`
path) but the destination is not an archive path, the export is saved to
`path + ".tmp"` and decompressed into the destination — and the exported
artifact is released as the session's last step. -/
theorem harCompression_c9 (harId : String) (p : HarParams) :
    fileAt (harSessionActs harId p) p.path = some (endsWithZip p.path)
    ∧ (harSessionActs harId p).getLast? = some (Act.artifactDelete harId) := by
  constructor
  · by_cases hz : endsWithZip p.path = true
    · by_cases hc : p.content = some HarContent.attach <;>
        simp [harSessionActs, fileAt, actWrites, List.findSome?, hz, hc]
    · by_cases hc : p.content = some HarContent.attach <;>
        simp [harSessionActs, fileAt, actWrites, List.findSome?, hz, hc]
  · by_cases hz : endsWithZip p.path = true <;>
      by_cases hc : p.content = some HarContent.attach <;>
        simp [harSessionActs, hz, hc]

/-- Counterexample to C9 as stated: a session with content mode attach
and destination `a.har` (no archive extension) ends with a decompressed
HAR at the destination, not a compressed archive. -/
theorem harCompression_c9_counter :
    (⟨"a.har", some HarContent.attach⟩ : HarParams).content
        = some HarContent.attach
    ∧ fileAt (harSessionActs "h" ⟨"a.har", some HarContent.attach⟩) "a.har"
        = some false :=
  ⟨rfl, by decide⟩
